import Mathlib

/-!
Shallow embedding of the CSV-to-Firestore attendance application
(`src/app.py`) and verification of its specification claims.

Scalar cell values are modelled by `Value`; a pandas record / Firestore
document payload is an association list from field names to values; the
Python-level operations (`clean_csv`, the migration loop of
`migrate_csv_to_firestore`, the pagination and reconciliation logic of
`update_firestore_record`, and the 500-operation batch loop) are
translated into executable Lean functions below.
-/

/-- A scalar cell value as it appears in a pandas record or an edit delta:
Python `bool`, `str`, `int`, or a null/NaN marker. -/
inductive Value where
  | vBool (b : Bool)
  | vStr (s : String)
  | vInt (n : Int)
  | vNull
deriving DecidableEq

/-- Python `str(...)` on the modelled scalar values. -/
def pyStr (v : Value) : String :=
  match v with
  | .vBool b => if b then "True" else "False"
  | .vStr s => s
  | .vInt n => toString n
  | .vNull => "nan"

/-- `True` exactly on the boolean constructor (`isinstance(val, bool)`). -/
def isVBool (v : Value) : Bool :=
  match v with
  | .vBool _ => true
  | _ => false

/-- Drop leading and trailing whitespace characters from a character list
(the character-level model of Python `str.strip()`). -/
def stripList (l : List Char) : List Char :=
  ((l.dropWhile Char.isWhitespace).reverse.dropWhile Char.isWhitespace).reverse

/-- Python `str.strip()`. -/
def pyStrip (s : String) : String := ⟨stripList s.data⟩

/-- Python `str.lower()`, character by character. -/
def pyLower (s : String) : String := ⟨s.data.map Char.toLower⟩

/-- The affirmative-token set of the source: `["yes", "نعم", "true", "1"]`
(the third source token is the Arabic affirmative word). -/
def affirmativeTokens : List String := ["yes", "نعم", "true", "1"]

/-- The `Attended` column name (`ATTENDED_COLUMN` in the source). -/
def ATTENDED_COLUMN : String := "Attended"

/-- Rows shown per page (`ROWS_PER_PAGE` in the source). -/
def ROWS_PER_PAGE : Nat := 10

/-- Attendance canonicalization of `update_firestore_record`
(src/app.py lines 191-198): a genuine boolean maps directly to
"Yes"/"No"; any other value is stringified, stripped, lower-cased and
compared against the affirmative-token set. -/
def canonAttend (v : Value) : String :=
  match v with
  | .vBool b => if b then "Yes" else "No"
  | _ => if affirmativeTokens.contains (pyLower (pyStrip (pyStr v))) then "Yes" else "No"

/-- Attendance canonicalization of `migrate_csv_to_firestore`
(src/app.py lines 76-78): always stringify, strip, lower-case, compare. -/
def canonAttendMigrate (v : Value) : String :=
  if affirmativeTokens.contains (pyLower (pyStrip (pyStr v))) then "Yes" else "No"

/-- A record: field name to scalar value, in insertion order
(the model of a Python dict row). -/
abbrev Record := List (String × Value)

/-- A Firestore document as loaded by `load_data`: its document id
(the DataFrame index `_doc_id`) plus its fields. -/
structure Document where
  docId : String
  fields : Record
deriving DecidableEq

/-- The default document handed to `List.getD`; it is never selected when
the index is in range. -/
def noDoc : Document := ⟨"", []⟩

/-- A field-change set of one edit-delta entry. -/
abbrev Changes := List (String × Value)

/-- One queued Firestore write: `batch.set(doc_ref, fields, merge)`. -/
structure WriteOp where
  docId : String
  fields : Changes
  merge : Bool
deriving DecidableEq

/-- Replace the `Attended` value of an edit-delta entry by its canonical
string, leaving every other field untouched
(src/app.py lines 190-198). -/
def canonChanges (ch : Changes) : Changes :=
  ch.map fun kv => if kv.1 = ATTENDED_COLUMN then (kv.1, .vStr (canonAttend kv.2)) else kv

/- ------------------- cleaning and migration ------------------- -/

/-- `True` when every field of the row is null/NaN
(the rows removed by `df.dropna(how="all")`). -/
def allNullRow (r : Record) : Bool :=
  r.all fun kv => kv.2 == Value.vNull

/-- Trim every field name of a row
(`df.columns = [str(c).strip() for c in df.columns]`). -/
def trimKeysRow (r : Record) : Record :=
  r.map fun kv => (pyStrip kv.1, kv.2)

/-- `clean_csv` (src/app.py lines 38-42): drop rows that are completely
empty, then trim the column names. -/
def clean_csv (rows : List Record) : List Record :=
  (rows.filter fun r => !(allNullRow r)).map trimKeysRow

/-- Drop the pandas artifact column `"Unnamed: 0"` if present
(src/app.py lines 55-56). -/
def dropUnnamed (r : Record) : Record :=
  r.filter fun kv => kv.1 ≠ "Unnamed: 0"

/-- The record list `data = df.to_dict("records")` the migration loop
iterates over, after cleaning and the `"Unnamed: 0"` drop. -/
def migrateData (rows : List Record) : List Record :=
  (clean_csv rows).map dropUnnamed

/-- `cleaned_record = \x7bstr(k).strip(): v for k, v in record.items() if
pd.notna(v)\x7d` (src/app.py line 74). -/
def stripNullsRecord (r : Record) : Record :=
  (r.filter fun kv => kv.2 ≠ Value.vNull).map fun kv => (pyStrip kv.1, kv.2)

/-- Canonicalize the `Attended` field of a migrated record, when present
(src/app.py lines 76-78). -/
def canonRecordMigrate (r : Record) : Record :=
  r.map fun kv => if kv.1 = ATTENDED_COLUMN then (kv.1, .vStr (canonAttendMigrate kv.2)) else kv

/-- Process one record of the migration loop (src/app.py lines 72-81):
strip nulls, canonicalize `Attended`, then build the write keyed by
`str(cleaned_record["ID"])`.  A record without an `"ID"` field raises
`KeyError`, modelled by the `error` branch. -/
def migrateRecord (r : Record) : Except String WriteOp :=
  let cleaned := canonRecordMigrate (stripNullsRecord r)
  match cleaned.lookup "ID" with
  | some v => .ok ⟨pyStr v, cleaned, false⟩
  | none => .error "KeyError"

/-- Run the migration loop over all records, in order; the first record
raising `KeyError` aborts the whole run (the source has no per-record
exception handling). -/
def migrateOps : List Record → Except String (List WriteOp)
  | [] => .ok []
  | r :: rs =>
    match migrateRecord r with
    | .error e => .error e
    | .ok w =>
      match migrateOps rs with
      | .error e => .error e
      | .ok ws => .ok (w :: ws)

/-- `migrate_csv_to_firestore` (src/app.py lines 45-101), pure part:
clean the parsed rows, process every record, and report
`record_counter` (the number of migrated records) with the queued
write operations. -/
def migrate (rows : List Record) : Except String (Nat × List WriteOp) :=
  match migrateOps (migrateData rows) with
  | .ok ops => .ok (ops.length, ops)
  | .error e => .error e

/-- Extract the reported record count of a migration run, `none` when the
run aborted with an exception. -/
def migCount (res : Except String (Nat × List WriteOp)) : Option Nat :=
  match res with
  | .ok p => some p.1
  | .error _ => none

/- ------------------- batching ------------------- -/

/-- The batch-size threshold of the source: `if batch_counter >= 500:
batch.commit()` (src/app.py line 87). -/
def BATCH_LIMIT : Nat := 500

/-- One iteration of the batching loop: append the operation to the open
batch and commit it once it reaches `L` operations
(src/app.py lines 81-93). -/
def batchStep (L : Nat) (acc : List (List WriteOp) × List WriteOp) (op : WriteOp) :
    List (List WriteOp) × List WriteOp :=
  let cur := acc.2 ++ [op]
  if L ≤ cur.length then (acc.1 ++ [cur], []) else (acc.1, cur)

/-- The chunks committed by the batching loop, including the final
`if batch_counter > 0: batch.commit()` (src/app.py lines 96-97). -/
def commitChunks (L : Nat) (ops : List WriteOp) : List (List WriteOp) :=
  let st := ops.foldl (batchStep L) ([], [])
  if st.2.isEmpty then st.1 else st.1 ++ [st.2]

/-- Issue the chunk commits in order against a store whose chunk `i`
commit raises iff `f i`; a raised commit aborts the loop (the source
wraps none of the `batch.commit()` calls of the migration in
`try/except`).  `ok` returns the committed chunks; `error` returns the
chunks committed before the failure and the failing chunk index. -/
def runBatchesFrom (f : Nat → Bool) :
    Nat → List (List WriteOp) → Except (List (List WriteOp) × Nat) (List (List WriteOp))
  | _, [] => .ok []
  | i, c :: cs =>
    if f i then .error ([], i)
    else
      match runBatchesFrom f (i + 1) cs with
      | .ok done => .ok (c :: done)
      | .error (done, j) => .error (c :: done, j)

/-- Issue all chunk commits starting at chunk index 0. -/
def runBatches (f : Nat → Bool) (chunks : List (List WriteOp)) :
    Except (List (List WriteOp) × Nat) (List (List WriteOp)) :=
  runBatchesFrom f 0 chunks

/-- The commit phase of the migration: chunk the queued operations at
`BATCH_LIMIT` and issue the commits in order. -/
def migrateCommit (f : Nat → Bool) (ops : List WriteOp) :
    Except (List (List WriteOp) × Nat) (List (List WriteOp)) :=
  runBatches f (commitChunks BATCH_LIMIT ops)

/- ------------------- pagination ------------------- -/

/-- `total_pages = max(1, math.ceil(total_rows / ROWS_PER_PAGE))`
(src/app.py lines 162, 243), with the rows-per-page constant as a
parameter. -/
def totalPages (R N : Nat) : Nat := max 1 ((N + R - 1) / R)

/-- The displayed page slice (src/app.py lines 160-167 and 259-262):
clamp the page number to `[1, totalPages]`, then take the rows from
`start_idx = (page_number - 1) * R` up to
`end_idx = min(start_idx + R, total_rows)`. -/
def pageOf (R : Nat) (snap : List Document) (p : Nat) : List Document :=
  (snap.drop ((max 1 (min p (totalPages R snap.length)) - 1) * R)).take R

/- ------------------- reconciliation ------------------- -/

/-- The stale-index check of `update_firestore_record`
(src/app.py line 183): `row_pos_int < 0 or row_pos_int >= len(page_df)`. -/
def outOfRange (page : List Document) (rp : Int) : Bool :=
  decide (rp < 0) || decide ((page.length : Int) ≤ rp)

/-- `update_firestore_record` (src/app.py lines 153-203), pure part:
recompute the page slice from the snapshot and the session page number,
then, entry by entry, skip out-of-range row indices and otherwise queue
`batch.set(doc_ref(page.index[rowPos]), canonicalized changes,
merge=True)`.  An empty snapshot returns early with no writes. -/
def reconcile (R : Nat) (snap : List Document) (p : Nat)
    (delta : List (Int × Changes)) : List WriteOp :=
  if snap.isEmpty then []
  else
    let page := pageOf R snap p
    delta.filterMap fun e =>
      if outOfRange page e.1 then none
      else some ⟨(page.getD e.1.toNat noDoc).docId, canonChanges e.2, true⟩

/-- The number of out-of-range warnings surfaced by one reconciliation
run (src/app.py line 184). -/
def reconcileWarnings (R : Nat) (snap : List Document) (p : Nat)
    (delta : List (Int × Changes)) : Nat :=
  if snap.isEmpty then 0
  else delta.countP fun e => outOfRange (pageOf R snap p) e.1

/- ------------------- scratch examples ------------------- -/

/-- The 25-document snapshot of end-to-end scenario 2, with document ids
`"d0"` to `"d24"` in order. -/
def snap25 : List Document := (List.range 25).map fun i => ⟨"d" ++ toString i, []⟩

/-- The default write operation handed to `List.getD`; never selected in
the theorems below. -/
def noOp : WriteOp := ⟨"", [], true⟩

/-- The default delta entry handed to `List.getD`; never selected in the
theorems below. -/
def noEntry : Int × Changes := ((0 : Int), ([] : Changes))

/-- The 501 writes of the two-chunk counterexample. -/
def demoOps : List WriteOp := (List.range 501).map fun i => ⟨toString i, [], false⟩


example : canonAttend (.vBool true) = "Yes" := by decide
example : canonAttend (.vStr " TRUE ") = "Yes" := by decide
example : canonAttend (.vStr "maybe") = "No" := by decide
example : canonAttend (.vInt 1) = "Yes" := by decide
example : canonAttend .vNull = "No" := by decide
example : (pageOf 10 snap25 2).length = 10 := by decide
example : ((pageOf 10 snap25 2).getD 3 noDoc).docId = "d13" := by decide
example :
    reconcile 10 snap25 2 [(3, [("Name", .vStr "X")])]
      = [⟨"d13", [("Name", .vStr "X")], true⟩] := by decide
example : totalPages 10 25 = 3 := by decide
example : totalPages 10 0 = 1 := by decide
example :
    migCount (migrate [[("ID", .vInt 1), ("Name", .vStr "a")],
      [("ID", .vNull), ("Name", .vNull)],
      [("ID", .vInt 3), ("Name", .vStr "c")]]) = some 2 := by decide
example :
    migrate [[("Name", .vStr "a"), ("ID", .vNull)], [("Name", .vStr "b"), ("ID", .vInt 2)]]
      = .error "KeyError" := rfl
example :
    commitChunks 2 [⟨"a", [], false⟩, ⟨"b", [], false⟩, ⟨"c", [], false⟩]
      = [[⟨"a", [], false⟩, ⟨"b", [], false⟩], [⟨"c", [], false⟩]] := by decide

/- ------------------- helper lemmas: stripping ------------------- -/

theorem dropWhile_twice {α : Type} (p : α → Bool) (l : List α) :
    (l.dropWhile p).dropWhile p = l.dropWhile p := by
  induction l with
  | nil => simp
  | cons x xs ih =>
    cases hx : p x with
    | true => simpa [List.dropWhile_cons, hx] using ih
    | false => simp [List.dropWhile_cons, hx]

theorem dropWhile_nil_or_head {α : Type} (p : α → Bool) (l : List α) :
    l.dropWhile p = [] ∨ ∃ d t, l.dropWhile p = d :: t ∧ p d = false := by
  induction l with
  | nil => exact Or.inl rfl
  | cons x xs ih =>
    cases hx : p x with
    | true => simpa [List.dropWhile_cons, hx] using ih
    | false => exact Or.inr ⟨x, xs, by simp [List.dropWhile_cons, hx], hx⟩

theorem dropWhile_strip_self {α : Type} (p : α → Bool) (m : List α) :
    (((m.dropWhile p).reverse.dropWhile p).reverse).dropWhile p
      = ((m.dropWhile p).reverse.dropWhile p).reverse := by
  rcases dropWhile_nil_or_head p m with h | ⟨d, t, h, hd⟩
  · simp [h]
  · rw [h]
    rcases dropWhile_nil_or_head p t.reverse with h2 | ⟨e, u, h2, he⟩
    · have : (t.reverse.dropWhile p).isEmpty = true := by simp [h2]
      simp [List.reverse_cons, List.dropWhile_append, this, List.dropWhile_cons, hd]
    · have : (t.reverse.dropWhile p).isEmpty = false := by simp [h2]
      simp only [List.reverse_cons, List.dropWhile_append, this, Bool.false_eq_true,
        if_false, List.reverse_append]
      simp [List.dropWhile_cons, hd]

theorem stripList_idem (l : List Char) : stripList (stripList l) = stripList l := by
  unfold stripList
  rw [dropWhile_strip_self, List.reverse_reverse]
  exact dropWhile_strip_self _ l

theorem pyStrip_idem (s : String) : pyStrip (pyStrip s) = pyStrip s := by
  show (⟨stripList (⟨stripList s.data⟩ : String).data⟩ : String) = ⟨stripList s.data⟩
  rw [show (⟨stripList s.data⟩ : String).data = stripList s.data from rfl, stripList_idem]

/- ------------------- claim C2 ------------------- -/

theorem pageOf_nil (R p : Nat) : pageOf R [] p = [] := by
  simp [pageOf]

/-- C2: attendance canonicalization is total and returns exactly one of
"Yes" or "No": boolean true maps to "Yes" and false to "No"; any other
value is stringified, stripped and lower-cased and maps to "Yes" iff the
result is in the affirmative-token set; a valid delta entry carrying
boolean true for the `Attended` field yields a WriteOp whose field value
is the string "Yes". -/
theorem C2_canonicalize_total :
    (∀ v, canonAttend v = "Yes" ∨ canonAttend v = "No")
    ∧ canonAttend (.vBool true) = "Yes"
    ∧ canonAttend (.vBool false) = "No"
    ∧ (∀ v, isVBool v = false →
        (canonAttend v = "Yes" ↔ pyLower (pyStrip (pyStr v)) ∈ affirmativeTokens))
    ∧ (∀ (snap : List Document) (p : Nat) (rp : Int) (ch : Changes),
        outOfRange (pageOf ROWS_PER_PAGE snap p) rp = false →
        (ATTENDED_COLUMN, Value.vBool true) ∈ ch →
        ∃ w ∈ reconcile ROWS_PER_PAGE snap p [(rp, ch)],
          (ATTENDED_COLUMN, Value.vStr "Yes") ∈ w.fields) := by
  refine ⟨?_, by decide, by decide, ?_, ?_⟩
  · intro v
    cases v with
    | vBool b => cases b <;> simp [canonAttend]
    | vStr s =>
      simp [canonAttend]
      exact Classical.em _
    | vInt n =>
      simp [canonAttend]
      exact Classical.em _
    | vNull =>
      simp [canonAttend]
      exact Classical.em _
  · intro v hv
    cases v with
    | vBool b => simp [isVBool] at hv
    | vStr s =>
      rcases Bool.eq_false_or_eq_true
        (affirmativeTokens.contains (pyLower (pyStrip (pyStr (Value.vStr s))))) with h | h <;>
        simp [canonAttend, h]
    | vInt n =>
      rcases Bool.eq_false_or_eq_true
        (affirmativeTokens.contains (pyLower (pyStrip (pyStr (Value.vInt n))))) with h | h <;>
        simp [canonAttend, h]
    | vNull =>
      rcases Bool.eq_false_or_eq_true
        (affirmativeTokens.contains (pyLower (pyStrip (pyStr Value.vNull)))) with h | h <;>
        simp [canonAttend, h]
  · intro snap p rp ch hin hmem
    cases snap with
    | nil =>
      exfalso
      rw [pageOf_nil] at hin
      simp [outOfRange] at hin
      omega
    | cons d ds =>
      have hrec : reconcile ROWS_PER_PAGE (d :: ds) p [(rp, ch)]
          = [⟨((pageOf ROWS_PER_PAGE (d :: ds) p).getD rp.toNat noDoc).docId,
              canonChanges ch, true⟩] := by
        simp [reconcile, hin]
      refine ⟨_, by rw [hrec]; exact List.mem_singleton.mpr rfl, ?_⟩
      show (ATTENDED_COLUMN, Value.vStr "Yes") ∈ canonChanges ch
      have hf : (fun kv : String × Value =>
          if kv.1 = ATTENDED_COLUMN then (kv.1, Value.vStr (canonAttend kv.2)) else kv)
            (ATTENDED_COLUMN, Value.vBool true) = (ATTENDED_COLUMN, Value.vStr "Yes") := by
        simp [canonAttend]
      exact hf ▸ List.mem_map_of_mem _ hmem

/-- C2 witness: the non-boolean rule at the integer 1 and the end-to-end
boolean-true scenario on a one-document snapshot. -/
theorem C2_witness :
    (canonAttend (Value.vInt 1) = "Yes" ↔ pyLower (pyStrip (pyStr (Value.vInt 1))) ∈ affirmativeTokens)
    ∧ ∃ w ∈ reconcile ROWS_PER_PAGE [⟨"a", []⟩] 1 [(0, [(ATTENDED_COLUMN, Value.vBool true)])],
        (ATTENDED_COLUMN, Value.vStr "Yes") ∈ w.fields :=
  ⟨C2_canonicalize_total.2.2.2.1 (Value.vInt 1) (by decide),
   C2_canonicalize_total.2.2.2.2 [⟨"a", []⟩] 1 0 [(ATTENDED_COLUMN, Value.vBool true)]
     (by decide) (by decide)⟩

/- ------------------- helper lemmas: pagination ------------------- -/

theorem totalPages_pos (R N : Nat) : 1 ≤ totalPages R N :=
  le_max_left 1 _

theorem totalPages_of_zero (R : Nat) (hR : 1 ≤ R) : totalPages R 0 = 1 := by
  unfold totalPages
  rw [Nat.div_eq_of_lt (by omega)]
  omega

theorem totalPages_of_pos (R N : Nat) (hR : 1 ≤ R) (hN : 1 ≤ N) :
    totalPages R N = (N + R - 1) / R := by
  unfold totalPages
  have h1 : 1 ≤ (N + R - 1) / R := (Nat.one_le_div_iff (by omega)).mpr (by omega)
  omega

theorem totalPages_mul_ge (R N : Nat) (hR : 1 ≤ R) : N ≤ totalPages R N * R := by
  have hd : R * ((N + R - 1) / R) + (N + R - 1) % R = N + R - 1 :=
    Nat.div_add_mod (N + R - 1) R
  have hm : (N + R - 1) % R < R := Nat.mod_lt _ (by omega)
  have hc : ((N + R - 1) / R) * R = R * ((N + R - 1) / R) := Nat.mul_comm _ _
  have h2 : ((N + R - 1) / R) * R ≤ totalPages R N * R :=
    Nat.mul_le_mul_right R (le_max_right 1 _)
  omega

theorem totalPages_pred_mul_lt (R N : Nat) (hR : 1 ≤ R) (hN : 1 ≤ N) :
    (totalPages R N - 1) * R < N := by
  rw [totalPages_of_pos R N hR hN]
  have hd : R * ((N + R - 1) / R) + (N + R - 1) % R = N + R - 1 :=
    Nat.div_add_mod (N + R - 1) R
  have hm : (N + R - 1) % R < R := Nat.mod_lt _ (by omega)
  have hs : ((N + R - 1) / R - 1) * R = ((N + R - 1) / R) * R - 1 * R :=
    Nat.sub_mul _ 1 R
  have hc : ((N + R - 1) / R) * R = R * ((N + R - 1) / R) := Nat.mul_comm _ _
  omega

theorem pageOf_eq_slice (R : Nat) (snap : List Document) (p : Nat)
    (h1 : 1 ≤ p) (h2 : p ≤ totalPages R snap.length) :
    pageOf R snap p = (snap.drop ((p - 1) * R)).take R := by
  unfold pageOf
  rw [show max 1 (min p (totalPages R snap.length)) = p by omega]

theorem flatMap_congr_mem {α β : Type} (l : List α) (f g : α → List β)
    (h : ∀ a ∈ l, f a = g a) : l.flatMap f = l.flatMap g := by
  induction l with
  | nil => simp
  | cons x xs ih =>
    rw [List.flatMap_cons, List.flatMap_cons, h x (List.mem_cons_self x xs),
      ih fun a ha => h a (List.mem_cons_of_mem x ha)]

theorem range_flatMap_take (R : Nat) :
    ∀ (m : Nat) (l : List Document),
      ((List.range m).flatMap fun i => (l.drop (i * R)).take R) = l.take (m * R) := by
  intro m
  induction m with
  | zero => simp
  | succ k ih =>
    intro l
    rw [List.range_succ, List.flatMap_append, ih l, List.flatMap_cons]
    simp only [List.flatMap_nil, List.append_nil]
    rw [Nat.succ_mul, List.take_add]

theorem pageOf_length_le (R : Nat) (snap : List Document) (p : Nat) :
    (pageOf R snap p).length ≤ R := by
  unfold pageOf
  rw [List.length_take]
  exact Nat.min_le_left _ _

/-- C4: pagination correctness: the page count is `max 1 ⌈N / R⌉` (so it
is 1 even for an empty snapshot), the page number is clamped to
`[1, pageCount]`, each page is the slice starting at
`(pageNumber-1)*R`, the pages' index ranges are pairwise disjoint, and
the in-order union of all pages is the whole snapshot. -/
theorem C4_pagination_correct (R : Nat) (snap : List Document) (hR : 1 ≤ R) :
    1 ≤ totalPages R snap.length
    ∧ (snap.length = 0 → totalPages R snap.length = 1)
    ∧ (1 ≤ snap.length →
        (totalPages R snap.length - 1) * R < snap.length
        ∧ snap.length ≤ totalPages R snap.length * R)
    ∧ (∀ p, pageOf R snap p = pageOf R snap (max 1 (min p (totalPages R snap.length))))
    ∧ (∀ p, 1 ≤ p → p ≤ totalPages R snap.length →
        pageOf R snap p = (snap.drop ((p - 1) * R)).take R
        ∧ (pageOf R snap p).length = min R (snap.length - (p - 1) * R))
    ∧ ((List.range (totalPages R snap.length)).flatMap fun i => pageOf R snap (i + 1)) = snap
    ∧ (∀ i j k, i < totalPages R snap.length → j < totalPages R snap.length → i ≠ j →
        ¬(i * R ≤ k ∧ k < i * R + (pageOf R snap (i + 1)).length
          ∧ j * R ≤ k ∧ k < j * R + (pageOf R snap (j + 1)).length)) := by
  refine ⟨totalPages_pos R _, ?_, ?_, ?_, ?_, ?_, ?_⟩
  · intro h0
    rw [h0]
    exact totalPages_of_zero R hR
  · intro hN
    exact ⟨totalPages_pred_mul_lt R _ hR hN, totalPages_mul_ge R _ hR⟩
  · intro p
    unfold pageOf
    have : max 1 (min (max 1 (min p (totalPages R snap.length))) (totalPages R snap.length))
        = max 1 (min p (totalPages R snap.length)) := by
      have := totalPages_pos R snap.length
      omega
    rw [this]
  · intro p hp1 hp2
    refine ⟨pageOf_eq_slice R snap p hp1 hp2, ?_⟩
    rw [pageOf_eq_slice R snap p hp1 hp2, List.length_take, List.length_drop, Nat.min_comm]
  · rw [flatMap_congr_mem (List.range (totalPages R snap.length))
      (fun i => pageOf R snap (i + 1)) (fun i => (snap.drop (i * R)).take R) ?_]
    · rw [range_flatMap_take]
      exact List.take_of_length_le (totalPages_mul_ge R _ hR)
    · intro i hi
      rw [List.mem_range] at hi
      show pageOf R snap (i + 1) = (snap.drop (i * R)).take R
      rw [pageOf_eq_slice R snap (i + 1) (by omega) (by omega)]
      simp
  · intro i j k hi hj hne
    rintro ⟨h1, h2, h3, h4⟩
    have hlenI : (pageOf R snap (i + 1)).length ≤ R := pageOf_length_le R snap (i + 1)
    have hlenJ : (pageOf R snap (j + 1)).length ≤ R := pageOf_length_le R snap (j + 1)
    rcases Nat.lt_or_ge i j with hij | hij
    · have hmul : (i + 1) * R ≤ j * R := Nat.mul_le_mul_right R hij
      rw [Nat.succ_mul] at hmul
      have h5 : k < i * R + R := Nat.lt_of_lt_of_le h2 (Nat.add_le_add_left hlenI _)
      exact absurd h3 (Nat.not_le.mpr (Nat.lt_of_lt_of_le h5 hmul))
    · have hji : j < i := by omega
      have hmul : (j + 1) * R ≤ i * R := Nat.mul_le_mul_right R hji
      rw [Nat.succ_mul] at hmul
      have h5 : k < j * R + R := Nat.lt_of_lt_of_le h4 (Nat.add_le_add_left hlenJ _)
      exact absurd h1 (Nat.not_le.mpr (Nat.lt_of_lt_of_le h5 hmul))

/-- C4 witness: the 25-document snapshot with 10 rows per page. -/
theorem C4_witness :
    1 ≤ totalPages 10 snap25.length
    ∧ (1 ≤ snap25.length →
        (totalPages 10 snap25.length - 1) * 10 < snap25.length
        ∧ snap25.length ≤ totalPages 10 snap25.length * 10)
    ∧ ((List.range (totalPages 10 snap25.length)).flatMap fun i => pageOf 10 snap25 (i + 1))
        = snap25 :=
  ⟨(C4_pagination_correct 10 snap25 (by decide)).1,
   (C4_pagination_correct 10 snap25 (by decide)).2.2.1,
   (C4_pagination_correct 10 snap25 (by decide)).2.2.2.2.2.1⟩

/- ------------------- claims C1, C5, C9 ------------------- -/

theorem getD_of_lt {α : Type} (l : List α) (n : Nat) (d : α) (h : n < l.length) :
    l.getD n d = l[n] := by
  rw [List.getD_eq_getElem?_getD, List.getElem?_eq_getElem h]
  rfl

theorem filterMap_eq_map_of_forall {α β : Type} (l : List α) (f : α → Option β) (g : α → β)
    (h : ∀ x ∈ l, f x = some (g x)) : l.filterMap f = l.map g := by
  induction l with
  | nil => simp
  | cons x xs ih =>
    simp [List.filterMap_cons, h x (List.mem_cons_self x xs),
      ih fun a ha => h a (List.mem_cons_of_mem x ha)]

theorem outOfRange_nil_false (rp : Int) (h : outOfRange [] rp = false) : False := by
  simp [outOfRange] at h
  omega

/-- C1: with a delta whose row indices are all in range, reconciliation
produces exactly one WriteOp per delta entry, in order, and the i-th
WriteOp's document id is the id of the document at the i-th entry's
row position in the page recomputed from the same snapshot and page
number. -/
theorem C1_reconcile_one_writeop_per_entry (R : Nat) (snap : List Document) (p : Nat)
    (delta : List (Int × Changes))
    (hvalid : ∀ e ∈ delta, outOfRange (pageOf R snap p) e.1 = false) :
    (reconcile R snap p delta).length = delta.length
    ∧ ∀ i, i < delta.length →
        ((reconcile R snap p delta).getD i noOp).docId
          = ((pageOf R snap p).getD ((delta.getD i noEntry).1.toNat) noDoc).docId := by
  cases snap with
  | nil =>
    have hd : delta = [] := by
      cases delta with
      | nil => rfl
      | cons e es =>
        exfalso
        have h := hvalid e (List.mem_cons_self e es)
        rw [pageOf_nil] at h
        exact outOfRange_nil_false _ h
    subst hd
    exact ⟨by simp [reconcile], by intro i hi; simp at hi⟩
  | cons d ds =>
    have hmap : reconcile R (d :: ds) p delta
        = delta.map fun e =>
            (⟨((pageOf R (d :: ds) p).getD e.1.toNat noDoc).docId,
              canonChanges e.2, true⟩ : WriteOp) := by
      show (if (d :: ds).isEmpty then [] else _) = _
      simp only [List.isEmpty_cons, if_false, Bool.false_eq_true]
      apply filterMap_eq_map_of_forall
      intro e he
      simp [hvalid e he]
    constructor
    · rw [hmap, List.length_map]
    · intro i hi
      rw [hmap, getD_of_lt _ i noOp (by rw [List.length_map]; exact hi),
        List.getElem_map, getD_of_lt _ i noEntry hi]

/-- C1 witness: end-to-end scenario 2: a 25-document snapshot with 10 rows
per page; on page 2 the delta entry at page-relative row index 3
resolves to the document at absolute 0-based position 13. -/
theorem C1_witness :
    (reconcile 10 snap25 2 [(3, [("Name", Value.vStr "X")])]).length = 1
    ∧ ((reconcile 10 snap25 2 [(3, [("Name", Value.vStr "X")])]).getD 0 noOp).docId = "d13" := by
  have h := C1_reconcile_one_writeop_per_entry 10 snap25 2
    [(3, [("Name", Value.vStr "X")])] (by decide)
  refine ⟨h.1, ?_⟩
  rw [h.2 0 (by decide)]
  decide

/-- C5: a delta with one out-of-range row index and one valid row index,
in either order, yields exactly one WriteOp — the one for the valid
index — plus exactly one warning; the out-of-range entry never makes
the result empty or discards the valid edit. -/
theorem C5_out_of_range_isolated (R : Nat) (snap : List Document) (p : Nat)
    (bad good : Int) (ch1 ch2 : Changes)
    (hbad : outOfRange (pageOf R snap p) bad = true)
    (hgood : outOfRange (pageOf R snap p) good = false) :
    (reconcile R snap p [(bad, ch1), (good, ch2)]
        = [⟨((pageOf R snap p).getD good.toNat noDoc).docId, canonChanges ch2, true⟩]
      ∧ reconcileWarnings R snap p [(bad, ch1), (good, ch2)] = 1)
    ∧ (reconcile R snap p [(good, ch2), (bad, ch1)]
        = [⟨((pageOf R snap p).getD good.toNat noDoc).docId, canonChanges ch2, true⟩]
      ∧ reconcileWarnings R snap p [(good, ch2), (bad, ch1)] = 1) := by
  cases snap with
  | nil =>
    exfalso
    rw [pageOf_nil] at hgood
    exact outOfRange_nil_false _ hgood
  | cons d ds =>
    refine ⟨⟨?_, ?_⟩, ⟨?_, ?_⟩⟩ <;>
      simp [reconcile, reconcileWarnings, hbad, hgood, List.filterMap_cons, List.countP_cons]

/-- C5 witness: a one-document snapshot, delta with indices 5 (stale) and
0 (valid). -/
theorem C5_witness :
    reconcile 10 [⟨"a", []⟩] 1 [(5, []), (0, [])] = [⟨"a", [], true⟩]
    ∧ reconcileWarnings 10 [⟨"a", []⟩] 1 [(5, []), (0, [])] = 1 := by
  have h := C5_out_of_range_isolated 10 [⟨"a", []⟩] 1 5 0 [] [] (by decide) (by decide)
  exact ⟨by rw [h.1.1]; decide, h.1.2⟩

/-- C9: for a valid delta entry, reconciliation passes every
non-attendance field through verbatim: the produced WriteOp carries
exactly the entry's field names, and each field other than `Attended`
appears in the WriteOp with exactly the supplied value (fields outside
the schema included, with merge semantics). -/
theorem C9_passthrough_verbatim (R : Nat) (snap : List Document) (p : Nat)
    (rp : Int) (ch : Changes)
    (hin : outOfRange (pageOf R snap p) rp = false) :
    reconcile R snap p [(rp, ch)]
      = [⟨((pageOf R snap p).getD rp.toNat noDoc).docId, canonChanges ch, true⟩]
    ∧ (canonChanges ch).map Prod.fst = ch.map Prod.fst
    ∧ ∀ k v, k ≠ ATTENDED_COLUMN → ((k, v) ∈ canonChanges ch ↔ (k, v) ∈ ch) := by
  refine ⟨?_, ?_, ?_⟩
  · cases snap with
    | nil =>
      exfalso
      rw [pageOf_nil] at hin
      exact outOfRange_nil_false _ hin
    | cons d ds => simp [reconcile, hin]
  · unfold canonChanges
    rw [List.map_map]
    apply List.map_congr_left
    intro kv _
    by_cases h : kv.1 = ATTENDED_COLUMN <;> simp [Function.comp, h]
  · intro k v hk
    constructor
    · intro hmem
      rcases List.mem_map.mp hmem with ⟨kv, hkv, heq⟩
      by_cases h : kv.1 = ATTENDED_COLUMN
      · rw [if_pos h] at heq
        simp only [Prod.mk.injEq] at heq
        exact absurd (heq.1 ▸ h) hk
      · rw [if_neg h] at heq
        exact heq ▸ hkv
    · intro hmem
      have hf : (fun kv : String × Value =>
          if kv.1 = ATTENDED_COLUMN then (kv.1, Value.vStr (canonAttend kv.2)) else kv) (k, v)
            = (k, v) := by simp [hk]
      exact hf ▸ List.mem_map_of_mem _ hmem

/-- C9 witness: a schema-foreign field `"Foo"` passes through verbatim. -/
theorem C9_witness :
    reconcile 10 [⟨"a", []⟩] 1 [(0, [("Foo", Value.vStr "bar")])]
      = [⟨((pageOf 10 [⟨"a", []⟩] 1).getD (Int.toNat 0) noDoc).docId,
          canonChanges [("Foo", Value.vStr "bar")], true⟩]
    ∧ ("Foo", Value.vStr "bar") ∈ canonChanges [("Foo", Value.vStr "bar")] :=
  ⟨(C9_passthrough_verbatim 10 [⟨"a", []⟩] 1 0 [("Foo", Value.vStr "bar")] (by decide)).1,
   ((C9_passthrough_verbatim 10 [⟨"a", []⟩] 1 0 [("Foo", Value.vStr "bar")] (by decide)).2.2
     "Foo" (Value.vStr "bar") (by decide)).mpr (by decide)⟩

/- ------------------- claims C3, C6 ------------------- -/

theorem batchLoop_invariant (L : Nat) (hL : 1 ≤ L) :
    ∀ (ops : List WriteOp) (committed : List (List WriteOp)) (cur : List WriteOp),
      cur.length < L →
      ((ops.foldl (batchStep L) (committed, cur)).1.flatten
          ++ (ops.foldl (batchStep L) (committed, cur)).2
        = committed.flatten ++ cur ++ ops)
      ∧ (ops.foldl (batchStep L) (committed, cur)).2.length < L
      ∧ (∀ c ∈ (ops.foldl (batchStep L) (committed, cur)).1,
          c ∈ committed ∨ c.length = L) := by
  intro ops
  induction ops with
  | nil =>
    intro committed cur hcur
    exact ⟨by simp, hcur, fun c hc => Or.inl hc⟩
  | cons op rest ih =>
    intro committed cur hcur
    rw [List.foldl_cons]
    have hl1 : (cur ++ [op]).length = cur.length + 1 := by simp
    by_cases h : L ≤ (cur ++ [op]).length
    · have hlen : (cur ++ [op]).length = L := by omega
      have h' : L ≤ cur.length + 1 := by omega
      have hstep : batchStep L (committed, cur) op = (committed ++ [cur ++ [op]], []) := by
        simp [batchStep, h']
      rw [hstep]
      obtain ⟨ih1, ih2, ih3⟩ := ih (committed ++ [cur ++ [op]]) [] (by simpa using hL)
      refine ⟨?_, ih2, ?_⟩
      · rw [ih1]
        simp [List.append_assoc]
      · intro c hc
        rcases ih3 c hc with hmem | hlenc
        · rcases List.mem_append.mp hmem with h1 | h2
          · exact Or.inl h1
          · right
            rw [List.mem_singleton.mp h2]
            exact hlen
        · exact Or.inr hlenc
    · have h' : ¬(L ≤ cur.length + 1) := by omega
      have hstep : batchStep L (committed, cur) op = (committed, cur ++ [op]) := by
        simp [batchStep, h']
      rw [hstep]
      have hlt : (cur ++ [op]).length < L := by omega
      obtain ⟨ih1, ih2, ih3⟩ := ih committed (cur ++ [op]) hlt
      refine ⟨?_, ih2, ih3⟩
      rw [ih1]
      simp [List.append_assoc]

theorem flatten_length_const (L : Nat) :
    ∀ cs : List (List WriteOp), (∀ c ∈ cs, c.length = L) →
      cs.flatten.length = cs.length * L := by
  intro cs
  induction cs with
  | nil => intro _; simp
  | cons c t ih =>
    intro h
    rw [List.flatten_cons, List.length_append, h c (List.mem_cons_self c t),
      ih fun a ha => h a (List.mem_cons_of_mem c ha)]
    simp [Nat.succ_mul]
    omega

theorem ceil_div_exact (L n : Nat) (hL : 1 ≤ L) : (n * L + L - 1) / L = n := by
  have h1 : n * L + L - 1 = L * n + (L - 1) := by
    rw [Nat.mul_comm]
    omega
  rw [h1, Nat.mul_add_div (by omega), Nat.div_eq_of_lt (by omega), Nat.add_zero]

theorem ceil_div_partial (L n r : Nat) (hL : 1 ≤ L) (hr1 : 1 ≤ r) (hr2 : r < L) :
    (n * L + r + L - 1) / L = n + 1 := by
  have h1 : n * L + r + L - 1 = L * n + ((r - 1) + L) := by
    rw [Nat.mul_comm]
    omega
  rw [h1, Nat.mul_add_div (by omega), Nat.add_div_right _ (by omega),
    Nat.div_eq_of_lt (by omega)]

theorem commitChunks_spec (L : Nat) (hL : 1 ≤ L) (ops : List WriteOp) :
    (commitChunks L ops).flatten = ops
    ∧ (∀ c ∈ commitChunks L ops, c.length ≤ L)
    ∧ (commitChunks L ops).length = (ops.length + L - 1) / L := by
  obtain ⟨h1, h2, h3⟩ := batchLoop_invariant L hL ops [] [] (by simpa using hL)
  simp only [List.flatten_nil, List.nil_append] at h1
  have hall : ∀ c ∈ (ops.foldl (batchStep L) ([], [])).1, c.length = L := by
    intro c hc
    rcases h3 c hc with hmem | hlen
    · simp at hmem
    · exact hlen
  by_cases he : (ops.foldl (batchStep L) ([], [])).2.isEmpty
  · have hcc : commitChunks L ops = (ops.foldl (batchStep L) ([], [])).1 := by
      simp [commitChunks, he]
    have h2nil : (ops.foldl (batchStep L) ([], [])).2 = [] := by
      simpa [List.isEmpty_iff] using he
    rw [h2nil, List.append_nil] at h1
    refine ⟨by rw [hcc, h1], ?_, ?_⟩
    · intro c hc
      rw [hcc] at hc
      exact (hall c hc).le
    · have hflen := flatten_length_const L _ hall
      rw [h1] at hflen
      rw [hcc, hflen, ceil_div_exact L _ hL]
  · have hcc : commitChunks L ops
        = (ops.foldl (batchStep L) ([], [])).1 ++ [(ops.foldl (batchStep L) ([], [])).2] := by
      simp [commitChunks, he]
    have hrpos : 1 ≤ (ops.foldl (batchStep L) ([], [])).2.length := by
      rcases hx : (ops.foldl (batchStep L) ([], [])).2 with _ | ⟨a, t⟩
      · rw [hx] at he
        simp at he
      · simp
    refine ⟨?_, ?_, ?_⟩
    · rw [hcc, List.flatten_append, List.flatten_cons, List.flatten_nil, List.append_nil, h1]
    · intro c hc
      rw [hcc] at hc
      rcases List.mem_append.mp hc with hm | hm
      · exact (hall c hm).le
      · rw [List.mem_singleton.mp hm]
        exact h2.le
    · have hflen := congrArg List.length h1
      rw [List.length_append, flatten_length_const L _ hall] at hflen
      rw [hcc, List.length_append, List.length_cons, List.length_nil, ← hflen,
        ceil_div_partial L _ _ hL hrpos h2]

/-- C3 counterexample: the claim requires the chunk-size threshold to be
an integer constant strictly below the store's hard per-batch limit of
500, but the source's threshold is exactly 500. -/
theorem C3_counterexample : BATCH_LIMIT = 500 ∧ ¬(BATCH_LIMIT < 500) := by decide

/-- C3 amended: for every sequence of k WriteOps the batch writer issues
`ceil(k / L)` commits in original input order, each carrying at most
`L` operations, whose concatenation is exactly the input (so no
operation is committed twice) — with `L = 500`, equal to (not strictly
below) the store's hard per-batch limit. -/
theorem C3_amended_chunking (ops : List WriteOp) :
    (commitChunks BATCH_LIMIT ops).length = (ops.length + BATCH_LIMIT - 1) / BATCH_LIMIT
    ∧ (∀ c ∈ commitChunks BATCH_LIMIT ops, c.length ≤ BATCH_LIMIT)
    ∧ (commitChunks BATCH_LIMIT ops).flatten = ops := by
  obtain ⟨h1, h2, h3⟩ := commitChunks_spec BATCH_LIMIT (by decide) ops
  exact ⟨h3, h2, h1⟩

/-- C3 witness: one write operation goes out as one commit of one
operation. -/
theorem C3_witness :
    (commitChunks BATCH_LIMIT [noOp]).length = 1
    ∧ (commitChunks BATCH_LIMIT [noOp]).flatten = [noOp] :=
  ⟨(C3_amended_chunking [noOp]).1, (C3_amended_chunking [noOp]).2.2⟩

theorem runBatchesFrom_first_fail (f : Nat → Bool) :
    ∀ (chunks : List (List WriteOp)) (s j : Nat), j < chunks.length →
      (∀ i, i < j → f (s + i) = false) → f (s + j) = true →
      runBatchesFrom f s chunks = .error (chunks.take j, s + j) := by
  intro chunks
  induction chunks with
  | nil =>
    intro s j hj
    simp at hj
  | cons c cs ih =>
    intro s j hj hbefore hfail
    cases j with
    | zero =>
      have h0 : f s = true := by simpa using hfail
      simp [runBatchesFrom, h0]
    | succ j' =>
      have h0 : f s = false := by simpa using hbefore 0 (by omega)
      have ihh := ih (s + 1) j' (by simpa using hj)
        (fun i hi => by
          rw [show s + 1 + i = s + (i + 1) from by omega]
          exact hbefore (i + 1) (by omega))
        (by
          rw [show s + 1 + j' = s + (j' + 1) from by omega]
          exact hfail)
      rw [show s + 1 + j' = s + (j' + 1) from by omega] at ihh
      simp [runBatchesFrom, h0, ihh]

/-- C6 counterexample: 501 queued writes make two chunks; when the first
chunk's commit raises, the migration run aborts with the exception —
nothing is recorded as failed, the second chunk is never issued, and no
partial-success count is produced. -/
theorem C6_counterexample :
    (commitChunks BATCH_LIMIT demoOps).length = 2
    ∧ migrateCommit (fun i => i == 0) demoOps = .error ([], 0) := by
  have hlen : (commitChunks BATCH_LIMIT demoOps).length = 2 := by
    rw [(commitChunks_spec BATCH_LIMIT (by decide) demoOps).2.2,
      show demoOps.length = 501 from by simp [demoOps]]
    decide
  refine ⟨hlen, ?_⟩
  obtain ⟨c, cs, hcc⟩ : ∃ c cs, commitChunks BATCH_LIMIT demoOps = c :: cs := by
    rcases h : commitChunks BATCH_LIMIT demoOps with _ | ⟨c, cs⟩
    · rw [h] at hlen
      simp at hlen
    · exact ⟨c, cs, rfl⟩
  unfold migrateCommit runBatches
  rw [hcc]
  simp [runBatchesFrom]

/-- C6 amended: when chunk `j` is the first whose atomic commit fails,
the migration's commit loop aborts with the uncaught exception at chunk
`j`: exactly the chunks before `j` are committed, the failing chunk and
every later chunk are not, and no failed-operation accounting is
returned. -/
theorem C6_amended_abort_on_failure (f : Nat → Bool) (ops : List WriteOp) (j : Nat)
    (hj : j < (commitChunks BATCH_LIMIT ops).length)
    (hbefore : ∀ i, i < j → f i = false) (hfail : f j = true) :
    migrateCommit f ops = .error ((commitChunks BATCH_LIMIT ops).take j, j) := by
  have h := runBatchesFrom_first_fail f (commitChunks BATCH_LIMIT ops) 0 j hj
    (fun i hi => by simpa using hbefore i hi) (by simpa using hfail)
  simpa [migrateCommit, runBatches] using h

/-- C6 witness: a single-chunk run whose only commit fails aborts with
nothing committed. -/
theorem C6_witness : migrateCommit (fun i => i == 0) [noOp] = .error ([], 0) := by
  have h := C6_amended_abort_on_failure (fun i => i == 0) [noOp] 0
    (by decide) (fun i hi => absurd hi (Nat.not_lt_zero i)) (by decide)
  simpa using h

/- ------------------- claims C8, C10 ------------------- -/

theorem canonRecordMigrate_cons (kv : String × Value) (t : Record) :
    canonRecordMigrate (kv :: t)
      = (if kv.1 = ATTENDED_COLUMN then (kv.1, Value.vStr (canonAttendMigrate kv.2)) else kv)
          :: canonRecordMigrate t := rfl

theorem lookup_canonRecordMigrate (r : Record) (k : String) :
    (canonRecordMigrate r).lookup k
      = (r.lookup k).map fun v =>
          if k = ATTENDED_COLUMN then Value.vStr (canonAttendMigrate v) else v := by
  induction r with
  | nil => rfl
  | cons kv t ih =>
    obtain ⟨a, b⟩ := kv
    rw [canonRecordMigrate_cons]
    by_cases hka : k = a
    · subst hka
      by_cases hA : k = ATTENDED_COLUMN <;> simp [List.lookup_cons, hA]
    · have hbeq : (k == a) = false := by simp [hka]
      by_cases hA : a = ATTENDED_COLUMN
      · subst hA
        simp [List.lookup_cons, hbeq, ih]
      · simp [List.lookup_cons, hA, hbeq, ih]

theorem migrateRecord_ok_docId (r : Record) (w : WriteOp)
    (h : migrateRecord r = .ok w) :
    ∃ v, w.fields.lookup "ID" = some v ∧ w.docId = pyStr v := by
  simp only [migrateRecord] at h
  rcases hl : (canonRecordMigrate (stripNullsRecord r)).lookup "ID" with _ | v
  · rw [hl] at h
    simp at h
  · rw [hl] at h
    simp only [Except.ok.injEq] at h
    exact ⟨v, by rw [← h, hl], by rw [← h]⟩

theorem migrateRecord_error_eq (r : Record) (e : String)
    (h : migrateRecord r = .error e) : e = "KeyError" := by
  simp only [migrateRecord] at h
  rcases hl : (canonRecordMigrate (stripNullsRecord r)).lookup "ID" with _ | v <;>
    rw [hl] at h <;> simp_all

theorem migrateOps_mem (rs : List Record) :
    ∀ ops, migrateOps rs = .ok ops → ∀ w ∈ ops, ∃ r ∈ rs, migrateRecord r = .ok w := by
  induction rs with
  | nil =>
    intro ops h w hw
    simp only [migrateOps, Except.ok.injEq] at h
    rw [← h] at hw
    simp at hw
  | cons r t ih =>
    intro ops h w hw
    rcases h1 : migrateRecord r with e | w0
    · rw [migrateOps, h1] at h
      simp at h
    · rw [migrateOps, h1] at h
      rcases h2 : migrateOps t with e | ws
      · rw [h2] at h
        simp at h
      · rw [h2] at h
        simp only [Except.ok.injEq] at h
        rw [← h] at hw
        rcases List.mem_cons.mp hw with rfl | hmem
        · exact ⟨r, List.mem_cons_self r t, h1⟩
        · obtain ⟨r', hr', hok⟩ := ih ws h2 w hmem
          exact ⟨r', List.mem_cons_of_mem r hr', hok⟩

theorem migrateOps_error_of_missing (rs : List Record) :
    (∃ r ∈ rs, (canonRecordMigrate (stripNullsRecord r)).lookup "ID" = none) →
    migrateOps rs = .error "KeyError" := by
  induction rs with
  | nil =>
    rintro ⟨r, hr, _⟩
    simp at hr
  | cons r t ih =>
    rintro ⟨r0, hr0, hnone⟩
    rcases List.mem_cons.mp hr0 with rfl | hmem
    · have hrec : migrateRecord r0 = .error "KeyError" := by
        simp only [migrateRecord]
        rw [hnone]
      rw [migrateOps, hrec]
    · rcases hh : migrateRecord r with e | w
      · rw [migrateOps, hh, migrateRecord_error_eq r e hh]
      · rw [migrateOps, hh, ih ⟨r0, hmem, hnone⟩]

theorem migrateOps_ok_of_ids (rs : List Record) :
    (∀ r ∈ rs, ((canonRecordMigrate (stripNullsRecord r)).lookup "ID").isSome) →
    ∃ ops, migrateOps rs = .ok ops ∧ ops.length = rs.length := by
  induction rs with
  | nil => exact fun _ => ⟨[], rfl, rfl⟩
  | cons r t ih =>
    intro h
    have hr := h r (List.mem_cons_self r t)
    rcases ho : (canonRecordMigrate (stripNullsRecord r)).lookup "ID" with _ | v
    · rw [ho] at hr
      simp at hr
    · obtain ⟨ops, hops, hlen⟩ := ih fun a ha => h a (List.mem_cons_of_mem r ha)
      refine ⟨⟨pyStr v, canonRecordMigrate (stripNullsRecord r), false⟩ :: ops, ?_, by
        simp [hlen]⟩
      rw [migrateOps, show migrateRecord r
        = .ok ⟨pyStr v, canonRecordMigrate (stripNullsRecord r), false⟩ from by
          simp only [migrateRecord]
          rw [ho], hops]

/-- C10: during migration every written document id is
`str(record["ID"])` — derived unconditionally from the record's `"ID"`
field; when some cleaned record has no `"ID"` value left after null
stripping, the migrator raises an uncaught `KeyError` and the whole
migration aborts instead of skipping the row. -/
theorem C10_docid_from_id_keyerror :
    (∀ (rows : List Record) (n : Nat) (ops : List WriteOp),
        migrate rows = .ok (n, ops) →
        ∀ w ∈ ops, ∃ v, w.fields.lookup "ID" = some v ∧ w.docId = pyStr v)
    ∧ (∀ rows : List Record,
        (∃ r ∈ migrateData rows, (stripNullsRecord r).lookup "ID" = none) →
        migrate rows = .error "KeyError") := by
  constructor
  · intro rows n ops h w hw
    rcases hm : migrateOps (migrateData rows) with e | ops'
    · rw [migrate, hm] at h
      simp at h
    · rw [migrate, hm] at h
      simp only [Except.ok.injEq, Prod.mk.injEq] at h
      rw [← h.2] at hw
      obtain ⟨r, _, hok⟩ := migrateOps_mem (migrateData rows) ops' hm w hw
      exact migrateRecord_ok_docId r w hok
  · intro rows ⟨r, hr, hnone⟩
    have h : migrateOps (migrateData rows) = .error "KeyError" :=
      migrateOps_error_of_missing (migrateData rows)
        ⟨r, hr, by rw [lookup_canonRecordMigrate, hnone]; rfl⟩
    rw [migrate, h]

/-- C10 witness: a record whose `"ID"` is absent aborts the migration
with `KeyError`; a migrated record's document id is the string of its
`"ID"` value. -/
theorem C10_witness :
    migrate [[("Name", Value.vStr "x")]] = .error "KeyError"
    ∧ ∃ v, (WriteOp.mk "7" [("ID", Value.vInt 7)] false).fields.lookup "ID" = some v
        ∧ (WriteOp.mk "7" [("ID", Value.vInt 7)] false).docId = pyStr v := by
  constructor
  · exact C10_docid_from_id_keyerror.2 [[("Name", Value.vStr "x")]]
      ⟨[("Name", Value.vStr "x")], by decide, by decide⟩
  · exact C10_docid_from_id_keyerror.1 [[("ID", Value.vInt 7)]] 1
      [⟨"7", [("ID", Value.vInt 7)], false⟩] rfl
      ⟨"7", [("ID", Value.vInt 7)], false⟩ (List.mem_singleton.mpr rfl)

/-- C8 counterexample: migration is not best-effort per row: a source
with one bad row (whose `"ID"` is null, so stripped away) and one good
row aborts with an uncaught `KeyError` instead of skipping the bad row
and importing the good one — even though the good row imports fine on
its own. -/
theorem C8_counterexample :
    migrate [[("Name", Value.vStr "a"), ("ID", Value.vNull)],
      [("Name", Value.vStr "b"), ("ID", Value.vInt 2)]] = .error "KeyError"
    ∧ migCount (migrate [[("Name", Value.vStr "b"), ("ID", Value.vInt 2)]]) = some 1 :=
  ⟨rfl, rfl⟩

/-- C8 amended: the migrator keeps no skipped counter and has no per-row
failure recovery: when every cleaned row retains an `"ID"` value it
imports all cleaned rows, reporting their count, and a 3-row source
with one fully-empty row reports 2 imported records (the empty row is
cleaned away, not counted); a row without `"ID"` aborts the whole
migration. -/
theorem C8_amended_no_row_skip :
    (∀ rows : List Record,
        (∀ r ∈ migrateData rows, ((stripNullsRecord r).lookup "ID").isSome) →
        ∃ ops, migrate rows = .ok ((migrateData rows).length, ops))
    ∧ migCount (migrate [[("ID", Value.vInt 1), ("Name", Value.vStr "a")],
        [("ID", Value.vNull), ("Name", Value.vNull)],
        [("ID", Value.vInt 3), ("Name", Value.vStr "c")]]) = some 2 := by
  constructor
  · intro rows h
    obtain ⟨ops, hops, hlen⟩ := migrateOps_ok_of_ids (migrateData rows) fun r hr => by
      rw [lookup_canonRecordMigrate]
      simpa using h r hr
    exact ⟨ops, by rw [migrate, hops]; simp [hlen]⟩
  · rfl

/-- C8 witness: a one-good-row source imports exactly one record. -/
theorem C8_witness :
    migCount (migrate [[("ID", Value.vInt 3), ("Name", Value.vStr "c")]]) = some 1 := by
  obtain ⟨ops, hops⟩ := C8_amended_no_row_skip.1
    [[("ID", Value.vInt 3), ("Name", Value.vStr "c")]] (by decide)
  rw [hops]
  rfl

/- ------------------- helper lemmas: cleaning ------------------- -/

theorem allNull_trimKeys (r : Record) : allNullRow (trimKeysRow r) = allNullRow r := by
  simp only [allNullRow, trimKeysRow, List.all_map]
  rfl

theorem trimKeysRow_idem (r : Record) : trimKeysRow (trimKeysRow r) = trimKeysRow r := by
  unfold trimKeysRow
  rw [List.map_map]
  apply List.map_congr_left
  intro kv _
  simp [Function.comp, pyStrip_idem]

/-- C7: record cleaning is pure, order-preserving, and idempotent: it
removes exactly the rows whose every field is null, trims every field
name, keeps the surviving rows in their original relative order
(a sublist of the name-trimmed input), and satisfies
`clean (clean x) = clean x`. -/
theorem C7_clean_pure_idempotent (rows : List Record) :
    clean_csv (clean_csv rows) = clean_csv rows
    ∧ List.Sublist (clean_csv rows) (rows.map trimKeysRow)
    ∧ (∀ r ∈ rows, allNullRow r = false → trimKeysRow r ∈ clean_csv rows)
    ∧ (∀ r2 ∈ clean_csv rows, ∃ r ∈ rows, allNullRow r = false ∧ r2 = trimKeysRow r)
    ∧ (clean_csv rows).length = rows.countP fun r => !(allNullRow r) := by
  refine ⟨?_, ?_, ?_, ?_, ?_⟩
  · unfold clean_csv
    rw [List.filter_map]
    have h1 : ∀ r ∈ rows.filter fun r => !(allNullRow r),
        ((fun r => !(allNullRow r)) ∘ trimKeysRow) r = (fun r => !(allNullRow r)) r := by
      intro r _
      simp [Function.comp, allNull_trimKeys]
    rw [List.filter_congr h1, List.filter_filter]
    simp only [Bool.and_self, List.map_map]
    apply List.map_congr_left
    intro r _
    exact trimKeysRow_idem r
  · exact List.Sublist.map trimKeysRow (List.filter_sublist rows)
  · intro r hr h
    exact List.mem_map_of_mem trimKeysRow (List.mem_filter.mpr ⟨hr, by simp [h]⟩)
  · intro r2 h2
    rcases List.mem_map.mp h2 with ⟨r, hrf, hr2⟩
    rcases List.mem_filter.mp hrf with ⟨hr, hP⟩
    exact ⟨r, hr, by simpa using hP, hr2.symm⟩
  · simp [clean_csv, List.countP_eq_length_filter]

/-- C7 witness: a concrete two-row input, one row fully null. -/
theorem C7_witness :
    clean_csv (clean_csv [[("ID", Value.vInt 1)], [(" A ", Value.vNull)]])
        = clean_csv [[("ID", Value.vInt 1)], [(" A ", Value.vNull)]]
    ∧ trimKeysRow [("ID", Value.vInt 1)]
        ∈ clean_csv [[("ID", Value.vInt 1)], [(" A ", Value.vNull)]] :=
  ⟨(C7_clean_pure_idempotent [[("ID", Value.vInt 1)], [(" A ", Value.vNull)]]).1,
   (C7_clean_pure_idempotent [[("ID", Value.vInt 1)], [(" A ", Value.vNull)]]).2.2.1
     [("ID", Value.vInt 1)] (by decide) (by decide)⟩
